import Mathlib

/-!
Shallow embedding of `tools/build_api.py`, a single-pass batch pipeline that
reads per-day navigation-latency CSV exports and writes a static JSON tree
(summary, per-county listings, day index, per-day documents, trend list).

Modelling conventions:
* Python `float` values are modelled as exact rationals.  A rational is kept
  as a numerator/denominator pair (`Frac`); `sum/len` divisions are reduced
  with `Nat.gcd` so that equal values have equal representations.  Binary64
  rounding is not modelled; every numeric value appearing in the concrete
  theorems below is exactly representable in binary64, except that the
  literal `0.99` is modelled as the exact rational 99/100.
* Strings are compared by code points, as CPython compares `str` values.
* The `csv` module is modelled for inputs that contain no double-quote
  characters (none of the inputs considered below do); a row is a line split
  at commas, with a trailing carriage return stripped and a leading
  byte-order mark removed from the file (encoding `utf-8-sig`).
* `datetime.strptime(_, "%Y%m%d")` is modelled by the regex CPython builds
  for that format: `%Y` matches exactly four digits, `%m` matches
  `1[0-2]|0[1-9]|[1-9]` and `%d` matches `3[01]|[12]\d|0[1-9]|[1-9]`, with
  the regex-engine backtracking order, followed by the
  unconverted-data-remains check and calendar validation.  An uncaught
  `ValueError` from `strptime` (or the `OverflowError` from
  `int(float("inf"))`, which is not modelled) is an `Except.error`: the
  whole run aborts.
* Filesystem writes are modelled as an ordered list of (path, document)
  pairs; a path is its list of components below the output root.  The
  trend step re-reads a per-day summary it wrote earlier in the same run,
  which is resolved against that same write list (each such path was
  written during the run, so the prior state of the tree is irrelevant).
* Python `sorted` is a stable sort; any stable sort w.r.t. the same total
  preorder produces the same list, so it is modelled by Mathlib's stable
  `List.insertionSort` (with the comparison reversed for `reverse=True`).
-/

/-- ASCII whitespace recognized by Python `str.strip` and `float`. -/
def is_space (c : Char) : Bool :=
  c = ' ' || c = '\t' || c = '\n' || c = '\r' || c.toNat = 11 || c.toNat = 12

/-- Python `str.strip()` (whitespace on both ends). -/
def py_strip (s : String) : String :=
  ((s.toList.dropWhile is_space).reverse.dropWhile is_space).reverse.asString

/-- Python `str.replace(c, "")` for a single-character pattern. -/
def remove_char (c : Char) (s : String) : String :=
  (s.toList.filter (fun x => x ≠ c)).asString

/-- Python `str.upper()` (ASCII; all inputs considered here are ASCII). -/
def py_upper (s : String) : String :=
  (s.toList.map Char.toUpper).asString

/-- Value of a decimal digit character. -/
def digit_val (c : Char) : ℕ := c.toNat - 48

/-- Numeric value of a digit run, most significant first. -/
def digits_nat (ds : List Char) : ℕ :=
  ds.foldl (fun a c => 10 * a + digit_val c) 0

/-- An exact rational, numerator over positive denominator. -/
structure Frac where
  num : ℤ
  den : ℕ
deriving DecidableEq, Repr

/-- The rational n/1. -/
def Frac.ofInt (n : ℤ) : Frac := ⟨n, 1⟩

/-- Exact value of the Python float division `n / d`, reduced to lowest
terms so that equal values compare equal. -/
def frac_div (n : ℤ) (d : ℕ) : Frac :=
  let g := Nat.gcd n.natAbs d
  ⟨Int.tdiv n g, d / g⟩

/-- Scale the exact value n/d by 10^e (a float exponent suffix). -/
def exp_scale (n : ℤ) (d : ℕ) (e : ℤ) : ℤ × ℕ :=
  if 0 ≤ e then (n * 10 ^ e.toNat, d) else (n, d * 10 ^ (-e).toNat)

/-- Parse the optional exponent suffix of a Python float literal and apply
it to the mantissa value n/d. -/
def parse_exp_part (n : ℤ) (d : ℕ) (r : List Char) : Option (ℤ × ℕ) :=
  match r with
  | [] => some (n, d)
  | c :: t =>
    if c = 'e' ∨ c = 'E' then
      match t with
      | '+' :: t2 =>
        if t2 ≠ [] ∧ t2.all Char.isDigit then some (exp_scale n d (digits_nat t2)) else none
      | '-' :: t2 =>
        if t2 ≠ [] ∧ t2.all Char.isDigit then some (exp_scale n d (-(digits_nat t2 : ℤ))) else none
      | t2 =>
        if t2 ≠ [] ∧ t2.all Char.isDigit then some (exp_scale n d (digits_nat t2)) else none
    else none

/-- Parse an unsigned Python float literal (digits, optional fraction,
optional exponent).  Returns the exact value as numerator/denominator.
Not modelled: `inf`/`nan` spellings and digit-group underscores. -/
def parse_number (cs : List Char) : Option (ℤ × ℕ) :=
  let ip := cs.takeWhile Char.isDigit
  let rest := cs.dropWhile Char.isDigit
  match rest with
  | [] => if ip = [] then none else some ((digits_nat ip : ℤ), 1)
  | c :: r2 =>
    if c = '.' then
      let fp := r2.takeWhile Char.isDigit
      let r3 := r2.dropWhile Char.isDigit
      if ip = [] ∧ fp = [] then none
      else parse_exp_part ((digits_nat ip : ℤ) * 10 ^ fp.length + (digits_nat fp : ℤ)) (10 ^ fp.length) r3
    else if ip = [] then none
    else parse_exp_part (digits_nat ip : ℤ) 1 rest

/-- Python `float(s)`: strip whitespace, optional sign, unsigned literal. -/
def py_float (s : String) : Option (ℤ × ℕ) :=
  match (py_strip s).toList with
  | '+' :: t => parse_number t
  | '-' :: t => (parse_number t).map (fun nd => (-nd.1, nd.2))
  | t => parse_number t

/-- `_to_latency` from the source: strip, remove thousands commas, treat
empty and NA/NULL (case-insensitively) as missing, else `int(float(s))`
(truncation toward zero); a parse failure is missing. -/
def to_latency (v : String) : Option ℤ :=
  let s := remove_char ',' (py_strip v)
  if s = "" ∨ py_upper s = "NA" ∨ py_upper s = "NULL" then none
  else (py_float s).map (fun nd => Int.tdiv nd.1 (nd.2 : ℤ))

/-- Two-character alternatives of the `%m` regex `1[0-2]|0[1-9]`, tried in
this order by the regex engine. -/
def month_match2 (cs : List Char) : Option (ℕ × List Char) :=
  match cs with
  | c0 :: c1 :: r =>
    if c0 = '1' ∧ (c1 = '0' ∨ c1 = '1' ∨ c1 = '2') then some (10 + digit_val c1, r)
    else if c0 = '0' ∧ c1.isDigit ∧ c1 ≠ '0' then some (digit_val c1, r)
    else none
  | _ => none

/-- One-character alternative `[1-9]` of the `%m` regex. -/
def month_match1 (cs : List Char) : Option (ℕ × List Char) :=
  match cs with
  | c0 :: r => if c0.isDigit ∧ c0 ≠ '0' then some (digit_val c0, r) else none
  | [] => none

/-- The `%d` regex `3[01]|[12]\d|0[1-9]|[1-9]`, alternatives in regex
order; the first that matches wins (nothing follows `%d`, so the engine
never backtracks past a successful day match). -/
def day_match (cs : List Char) : Option (ℕ × List Char) :=
  match cs with
  | c0 :: c1 :: r =>
    if c0 = '3' ∧ (c1 = '0' ∨ c1 = '1') then some (30 + digit_val c1, r)
    else if (c0 = '1' ∨ c0 = '2') ∧ c1.isDigit then some (10 * digit_val c0 + digit_val c1, r)
    else if c0 = '0' ∧ c1.isDigit ∧ c1 ≠ '0' then some (digit_val c1, r)
    else if c0.isDigit ∧ c0 ≠ '0' then some (digit_val c0, c1 :: r)
    else none
  | [c0] => if c0.isDigit ∧ c0 ≠ '0' then some (digit_val c0, []) else none
  | [] => none

/-- Match `%m%d` against `cs` in regex backtracking order: a two-character
month alternative first; if no day alternative fits after it, fall back to
the one-character month `[1-9]` (possible only when the first character is
nonzero). -/
def md_match (cs : List Char) : Option (ℕ × ℕ × List Char) :=
  let one : Option (ℕ × ℕ × List Char) :=
    match month_match1 cs with
    | some (m, r) => (day_match r).map (fun dr => (m, dr.1, dr.2))
    | none => none
  match month_match2 cs with
  | some (m, r) =>
    match day_match r with
    | some (d, r2) => some (m, d, r2)
    | none => one
  | none => one

/-- Gregorian leap year, as `datetime` uses. -/
def is_leap (y : ℕ) : Bool := y % 4 = 0 && (y % 100 ≠ 0 || y % 400 = 0)

/-- Length of a month, as `datetime` validates. -/
def days_in_month (y m : ℕ) : ℕ :=
  if m = 2 then (if is_leap y then 29 else 28)
  else if m = 4 ∨ m = 6 ∨ m = 9 ∨ m = 11 then 30 else 31

/-- Calendar validity enforced by the `datetime` constructor
(`MINYEAR = 1`; the month range is already guaranteed by the regex). -/
def valid_date (y m d : ℕ) : Bool :=
  1 ≤ y && 1 ≤ d && d ≤ days_in_month y m

/-- `datetime.strptime(s, "%Y%m%d")` on an all-digit string: `%Y` takes
exactly four digits, then `%m%d` match in regex order; leftover characters
("unconverted data remains"), a failed match, or an invalid calendar date
raise `ValueError`, modelled as `Except.error ()`. -/
def strptime_ymd (cs : List Char) : Except Unit (ℕ × ℕ × ℕ) :=
  if cs.length < 4 then .error ()
  else
    let y := digits_nat (cs.take 4)
    match md_match (cs.drop 4) with
    | none => .error ()
    | some (m, d, rest) =>
      if rest ≠ [] then .error ()
      else if valid_date y m d then .ok (y, m, d) else .error ()

/-- Decimal digit character of `n % 10`. -/
def digit_char (n : ℕ) : Char := Char.ofNat (48 + n % 10)

/-- Zero-padded two-digit decimal rendering (`strftime` `%m`/`%d`). -/
def pad2 (n : ℕ) : String := String.mk [digit_char (n / 10), digit_char n]

/-- Zero-padded four-digit decimal rendering (`strftime` `%Y`). -/
def pad4 (n : ℕ) : String :=
  String.mk [digit_char (n / 1000), digit_char (n / 100), digit_char (n / 10), digit_char n]

/-- `_parse_day_from_name` from the source: take the leading digit run
(greedily up to eight digits, at least six, else no match and the file is
skipped), prepend "20" to a six-digit token, parse with
`strptime(_, "%Y%m%d")` and render `"%Y-%m-%d"`.  `Except.error ()` is an
uncaught `ValueError`: the whole run crashes. -/
def parse_day_from_name (name : String) : Except Unit (Option String) :=
  let token := (name.toList.takeWhile Char.isDigit).take 8
  if token.length < 6 then .ok none
  else
    let t := if token.length = 6 then '2' :: '0' :: token else token
    match strptime_ymd t with
    | .error e => .error e
    | .ok (y, m, d) => .ok (some (pad4 y ++ "-" ++ pad2 m ++ "-" ++ pad2 d))

/-- One event record, fields named as in the dicts the source builds. -/
structure Row where
  time : String
  userID : String
  Username : String
  County : String
  Screen : String
  Latency : ℤ
deriving DecidableEq, Repr

/-- Split a character list at every occurrence of `sep`. -/
def split_on_char (sep : Char) : List Char → List (List Char)
  | [] => [[]]
  | c :: cs =>
    match split_on_char sep cs with
    | [] => [[]]
    | g :: gs => if c = sep then [] :: g :: gs else (c :: g) :: gs

/-- Drop a trailing carriage return (the csv reader accepts CRLF rows). -/
def strip_cr (cs : List Char) : List Char :=
  match cs.reverse with
  | '\r' :: r => r.reverse
  | _ => cs

/-- Drop the byte-order mark that the `utf-8-sig` encoding strips from the
start of the file. -/
def strip_bom (cs : List Char) : List Char :=
  match cs with
  | '﻿' :: r => r
  | _ => cs

/-- The rows the csv reader yields from a file body: lines split at commas
(no quote characters in the inputs considered here). -/
def csv_rows (content : String) : List (List String) :=
  (split_on_char '\n' (strip_bom content.toList)).map
    (fun line => (split_on_char ',' (strip_cr line)).map List.asString)

/-- The loop body of `read_headerless_nav`: a row with fewer than six
fields is discarded; the first six fields are read positionally; a row
whose coerced latency is missing is discarded; surviving fields are
normalized (`userID` loses `#` after trimming, `County` is trimmed and
upper-cased, other strings are trimmed). -/
def parse_cols (cols : List String) : Option Row :=
  if cols.length < 6 then none
  else
    match to_latency (cols.getD 5 "") with
    | none => none
    | some lat =>
      some { time := py_strip (cols.getD 0 "")
             userID := remove_char '#' (py_strip (cols.getD 1 ""))
             Username := py_strip (cols.getD 2 "")
             County := py_upper (py_strip (cols.getD 3 ""))
             Screen := py_strip (cols.getD 4 "")
             Latency := lat }

/-- `read_headerless_nav` from the source. -/
def read_headerless_nav (content : String) : List Row :=
  (csv_rows content).filterMap parse_cols

deriving instance DecidableEq for Except

/-- Lexicographic code-point comparison of character lists, the order
CPython uses to compare `str` values. -/
def str_le_chars : List Char → List Char → Bool
  | [], _ => true
  | _ :: _, [] => false
  | a :: as, b :: bs =>
    if a.toNat < b.toNat then true
    else if a.toNat = b.toNat then str_le_chars as bs
    else false

/-- Code-point order on strings. -/
def str_le (a b : String) : Prop := str_le_chars a.toList b.toList = true

instance : DecidableRel str_le := fun _ _ => by unfold str_le; infer_instance

/-- Latency-descending preorder on rows: `sorted(key=Latency, reverse=True)`
is the stable sort by this relation. -/
def lat_ge (a b : Row) : Prop := b.Latency ≤ a.Latency

instance : DecidableRel lat_ge := fun a b => Int.decLe b.Latency a.Latency

/-- Filename order on (name, body) input files, the order `sorted` puts the
globbed paths in (all paths share the directory). -/
def file_le (a b : String × String) : Prop := str_le a.1 b.1

instance : DecidableRel file_le := fun _ _ => by unfold file_le; infer_instance

theorem str_le_chars_total (a b : List Char) :
    str_le_chars a b = true ∨ str_le_chars b a = true := by
  induction a generalizing b with
  | nil => left; rfl
  | cons x xs ih =>
    cases b with
    | nil => right; rfl
    | cons y ys =>
      rcases Nat.lt_trichotomy x.toNat y.toNat with h | h | h
      · left; simp [str_le_chars, h]
      · rcases ih ys with h2 | h2
        · left; simp [str_le_chars, h, h2]
        · right; simp [str_le_chars, h.symm, h2]
      · right; simp [str_le_chars, h]

theorem str_le_chars_trans {a b c : List Char}
    (hab : str_le_chars a b = true) (hbc : str_le_chars b c = true) :
    str_le_chars a c = true := by
  induction a generalizing b c with
  | nil => rfl
  | cons x xs ih =>
    cases b with
    | nil => simp [str_le_chars] at hab
    | cons y ys =>
      cases c with
      | nil => simp [str_le_chars] at hbc
      | cons z zs =>
        simp only [str_le_chars] at hab hbc ⊢
        by_cases hxy : x.toNat < y.toNat
        · by_cases hyz : y.toNat < z.toNat
          · simp [Nat.lt_trans hxy hyz]
          · simp only [hyz, if_false] at hbc
            by_cases hyz2 : y.toNat = z.toNat
            · simp [hyz2 ▸ hxy]
            · simp [hyz2] at hbc
        · simp only [hxy, if_false] at hab
          by_cases hxy2 : x.toNat = y.toNat
          · simp only [hxy2, if_true] at hab
            by_cases hyz : y.toNat < z.toNat
            · simp [hxy2, hyz]
            · simp only [hyz, if_false] at hbc
              by_cases hyz2 : y.toNat = z.toNat
              · have hxz : x.toNat = z.toNat := hxy2.trans hyz2
                have : ¬ x.toNat < z.toNat := by omega
                simp [this, hxz, ih hab (by simpa [hyz2] using hbc)]
              · simp [hyz2] at hbc
          · simp [hxy2] at hab

instance : IsTotal String str_le := ⟨fun a b => str_le_chars_total a.toList b.toList⟩

instance : IsTrans String str_le := ⟨fun _ _ _ => str_le_chars_trans⟩

instance : IsTotal Row lat_ge := ⟨fun a b => Int.le_total b.Latency a.Latency⟩

instance : IsTrans Row lat_ge := ⟨fun _ _ _ h1 h2 => le_trans h2 h1⟩

instance : IsTotal (String × String) file_le :=
  ⟨fun a b => str_le_chars_total a.1.toList b.1.toList⟩

instance : IsTrans (String × String) file_le := ⟨fun _ _ _ => str_le_chars_trans⟩

/-- `percentile` from the source: 0 on an empty list, else the element of
the ascending-sorted list at index `int(p * (len(s) - 1))`, with `int()`
truncating toward zero.  The index is stated with `getD`; for p in [0,1]
(the program only ever passes 0.5, 0.95 and 0.99) it is in range, which is
what the out-of-range behaviour of Python indexing would require. -/
def percentile (values : List ℤ) (p : Frac) : ℤ :=
  if values.isEmpty then 0
  else
    let s := List.insertionSort (fun a b : ℤ => a ≤ b) values
    s.getD (Int.tdiv (p.num * ((values.length - 1 : ℕ) : ℤ)) (p.den : ℤ)).toNat 0

/-- Insert a row into the insertion-ordered county grouping, as a
`defaultdict` keyed by the normalized county does. -/
def add_to_group (gs : List (String × List Row)) (r : Row) : List (String × List Row) :=
  match gs with
  | [] => [(r.County, [r])]
  | (c, arr) :: rest =>
    if c = r.County then (c, arr ++ [r]) :: rest else (c, arr) :: add_to_group rest r

/-- Group rows by county in order of first appearance. -/
def group_by_county (rows : List Row) : List (String × List Row) :=
  rows.foldl add_to_group []

/-- An aggregate summary document, shaped as the dict the source builds. -/
structure Summary where
  count : ℕ
  mean : Frac
  p50 : ℤ
  p95 : ℤ
  p99 : ℤ
  byCountyAvg : List (String × Frac)
deriving DecidableEq, Repr

/-- Sum of latencies of a row list. -/
def lat_sum (rows : List Row) : ℤ := (rows.map Row.Latency).sum

/-- `summarize` from the source: count, mean (0 when empty), the three
percentiles at 0.5 / 0.95 / 0.99, and the per-county mean map; also
returns the county grouping for the per-county listings. -/
def summarize (rows : List Row) : Summary × List (String × List Row) :=
  let lat := rows.map Row.Latency
  let groups := group_by_county rows
  (⟨rows.length,
    if lat.isEmpty then Frac.ofInt 0 else frac_div lat.sum rows.length,
    percentile lat ⟨1, 2⟩, percentile lat ⟨19, 20⟩, percentile lat ⟨99, 100⟩,
    groups.map (fun g => (g.1, frac_div (lat_sum g.2) g.2.length))⟩,
   groups)

/-- A per-day trend list entry `{day, count, mean, p50, p95, p99}`. -/
structure TrendEntry where
  day : String
  count : ℕ
  mean : Frac
  p50 : ℤ
  p95 : ℤ
  p99 : ℤ
deriving DecidableEq, Repr

/-- A JSON document the pipeline writes. -/
inductive Doc where
  | summary (s : Summary)
  | rows (rs : List Row)
  | days (ds : List String)
  | trend (ts : List TrendEntry)
deriving DecidableEq, Repr

/-- The per-county listing cap. -/
def TOP_N_PER_COUNTY : ℕ := 200

/-- A per-county listing: rows sorted by latency descending (stable, as
`sorted(..., reverse=True)` is), truncated to the cap. -/
def top_n (arr : List Row) : List Row :=
  (List.insertionSort lat_ge arr).take TOP_N_PER_COUNTY

/-- The county label used in output paths: `c or 'UNKNOWN'`. -/
def county_label (c : String) : String := if c = "" then "UNKNOWN" else c

/-- The writes the loop body performs for one day: the per-day summary,
then one listing per county in grouping order.  Paths are component lists
below the output root. -/
def per_day_writes (day : String) (rows : List Row) : List (List String × Doc) :=
  (["days", day, "summary.json"], Doc.summary (summarize rows).1) ::
    (summarize rows).2.map
      (fun g => (["days", day, "byCounty", county_label g.1 ++ ".json"], Doc.rows (top_n g.2)))

/-- Whether a filename matches the glob `*userRecord.NAVIGATION.csv`. -/
def name_matches (n : String) : Bool :=
  "userRecord.NAVIGATION.csv".toList.isSuffixOf n.toList

/-- The globbed input files in sorted order. -/
def matched_files (listing : List (String × String)) : List (String × String) :=
  List.insertionSort file_le (listing.filter (fun f => name_matches f.1))

/-- The per-file loop of `build`: skip files whose name yields no day,
abort the run if `strptime` raises, else register the day, extract the
rows, emit the per-day writes and accumulate the rows.  (On an abort the
writes already flushed by earlier iterations are not tracked; no claim
below concerns them.) -/
def process_files :
    List (String × String) → Except Unit (List String × List Row × List (List String × Doc))
  | [] => .ok ([], [], [])
  | f :: rest =>
    match parse_day_from_name f.1 with
    | .error e => .error e
    | .ok none => process_files rest
    | .ok (some day) =>
      match process_files rest with
      | .error e => .error e
      | .ok (days, allRows, ws) =>
        .ok (day :: days, read_headerless_nav f.2 ++ allRows,
             per_day_writes day (read_headerless_nav f.2) ++ ws)

/-- The content at a path after a list of writes, each overwriting any
earlier write at the same path. -/
def lookup_last (ws : List (List String × Doc)) (p : List String) : Option Doc :=
  ws.foldl (fun acc x => if x.1 = p then some x.2 else acc) none

/-- Sorted day strings (`sorted(days)`): code-point order, duplicates
kept. -/
def sort_days (ds : List String) : List String := List.insertionSort str_le ds

/-- Re-read one day's just-written summary and shape the trend entry
`{"day": d, count, mean, p50, p95, p99}`. -/
def trend_entry (ws : List (List String × Doc)) (d : String) : Option TrendEntry :=
  match lookup_last ws ["days", d, "summary.json"] with
  | some (Doc.summary s) => some ⟨d, s.count, s.mean, s.p50, s.p95, s.p99⟩
  | _ => none

/-- The trend-assembly loop: one entry per element of `sorted(days)`;
`json.load` on a missing path would raise (it cannot on a real run, since
every registered day's summary was written earlier in the same run). -/
def trend_of (ws : List (List String × Doc)) : List String → Except Unit (List TrendEntry)
  | [] => .ok []
  | d :: ds =>
    match trend_entry ws d with
    | none => .error ()
    | some e =>
      match trend_of ws ds with
      | .error er => .error er
      | .ok ts => .ok (e :: ts)

/-- `build` from the source, as the ordered list of writes it performs:
the per-day documents in file order, then `days.json`, and — only when at
least one row was extracted — the all-time summary, the all-time
per-county listings, and the trend list. -/
def build (listing : List (String × String)) : Except Unit (List (List String × Doc)) :=
  match process_files (matched_files listing) with
  | .error e => .error e
  | .ok (days, allRows, w1) =>
    let w2 := w1 ++ [(["days.json"], Doc.days (sort_days days))]
    if allRows.isEmpty then .ok w2
    else
      let w3 := w2 ++ (["summary.json"], Doc.summary (summarize allRows).1) ::
        (summarize allRows).2.map
          (fun g => (["byCounty", county_label g.1 ++ ".json"], Doc.rows (top_n g.2)))
      match trend_of w3 (sort_days days) with
      | .error e => .error e
      | .ok ts => .ok (w3 ++ [(["trends", "summary_by_day.json"], Doc.trend ts)])

/-- The output tree after applying a run's writes over a prior state. -/
def apply_writes (fs : List String → Option Doc) (ws : List (List String × Doc)) :
    List String → Option Doc :=
  fun p =>
    match lookup_last ws p with
    | some d => some d
    | none => fs p

/-- One pipeline invocation against an output tree state. -/
def run_build (listing : List (String × String)) (fs : List String → Option Doc) :
    Except Unit (List String → Option Doc) :=
  (build listing).map (fun ws => apply_writes fs ws)

set_option maxRecDepth 10000

/-- C1: the claim says a filename whose leading digit run is not a valid
calendar date is skipped silently.  The code does not skip: `250230`
(modelled as February 30) raises an uncaught `ValueError` inside
`_parse_day_from_name`, aborting the whole run; a 7-digit leading run
either aborts the same way (`2025010`) or — because `%m`/`%d` may match a
single digit — parses successfully and registers a bogus day
(`2501012` becomes `2501-01-02`).  In no case is the file skipped. -/
theorem c1_invalid_date_aborts_run :
    build [("250230.userRecord.NAVIGATION.csv", "")] = .error () ∧
    parse_day_from_name "250230.userRecord.NAVIGATION.csv" = .error () ∧
    parse_day_from_name "2025010.userRecord.NAVIGATION.csv" = .error () ∧
    parse_day_from_name "2501012.userRecord.NAVIGATION.csv" = .ok (some "2501-01-02") := by
  decide

/-- C4: latency coercion maps "5983", "5,983", "5983.0" and " 5983 " to
5983; maps "", "NA", "na", "NULL" and "abc" to missing; and a row whose
sixth field is the literal text `latency` is dropped by that same
missing-latency rule (the extraction of a pure header line yields no
record). -/
theorem c4_latency_coercion :
    to_latency "5983" = some 5983 ∧
    to_latency "5,983" = some 5983 ∧
    to_latency "5983.0" = some 5983 ∧
    to_latency " 5983 " = some 5983 ∧
    to_latency "" = none ∧
    to_latency "NA" = none ∧
    to_latency "na" = none ∧
    to_latency "NULL" = none ∧
    to_latency "abc" = none ∧
    to_latency "latency" = none ∧
    read_headerless_nav "time,userID,username,county,screen,latency" = [] := by
  decide

/-- C7: the end-to-end example.  Two one-row input files produce the
claimed day index, all-time summary (count 2, mean 2000), the WAKE listing
sorted latency-descending (3000 before 1000, `#` stripped from the first
userID, counties upper-cased), and the two-entry trend list. -/
theorem c7_end_to_end :
    (build
      [("250101.userRecord.NAVIGATION.csv", "t1,#U1,alice,wake,Home,1000"),
       ("250102.userRecord.NAVIGATION.csv", "t2,U2,bob,WAKE,Home,3000")]).map
      (fun ws =>
        (lookup_last ws ["days.json"],
         lookup_last ws ["summary.json"],
         lookup_last ws ["byCounty", "WAKE.json"],
         lookup_last ws ["trends", "summary_by_day.json"])) =
    .ok
      (some (Doc.days ["2025-01-01", "2025-01-02"]),
       some (Doc.summary ⟨2, ⟨2000, 1⟩, 1000, 1000, 1000, [("WAKE", ⟨2000, 1⟩)]⟩),
       some (Doc.rows
         [⟨"t2", "U2", "bob", "WAKE", "Home", 3000⟩,
          ⟨"t1", "U1", "alice", "WAKE", "Home", 1000⟩]),
       some (Doc.trend
         [⟨"2025-01-01", 1, ⟨1000, 1⟩, 1000, 1000, 1000⟩,
          ⟨"2025-01-02", 1, ⟨3000, 1⟩, 3000, 3000, 3000⟩])) := by
  decide

/-- C2, counterexample: extraction does not enforce non-negativity.  The
row `t,u,n,c,s,-5` survives extraction with the negative latency -5. -/
theorem c2_negative_latency_counterexample :
    (read_headerless_nav "t,u,n,c,s,-5").map Row.Latency = [-5] ∧ (-5 : ℤ) < 0 := by
  decide

theorem parse_cols_latency {cols : List String} {r : Row}
    (h : parse_cols cols = some r) :
    to_latency (cols.getD 5 "") = some r.Latency := by
  unfold parse_cols at h
  split at h
  · exact absurd h (by simp)
  · cases hl : to_latency (cols.getD 5 "") with
    | none => rw [hl] at h; exact absurd h (by simp)
    | some v =>
      rw [hl] at h
      simp only [Option.some.injEq] at h
      rw [← h]

/-- C2, amended: every record produced by extraction comes from a source
row whose sixth field coerces successfully, and the record's latency is
exactly the coercion of that row's own sixth field; conversely a row whose
sixth field cannot be coerced yields no record at all (it is dropped and
does not exist downstream).  Non-negativity is not enforced. -/
theorem c2_every_record_latency_coerced (content : String) :
    (∀ r ∈ read_headerless_nav content,
      ∃ cols ∈ csv_rows content, parse_cols cols = some r ∧
        to_latency (cols.getD 5 "") = some r.Latency) ∧
    (∀ cols ∈ csv_rows content, to_latency (cols.getD 5 "") = none →
      parse_cols cols = none) := by
  constructor
  · intro r hr
    unfold read_headerless_nav at hr
    rcases List.mem_filterMap.mp hr with ⟨cols, hm, hc⟩
    exact ⟨cols, hm, hc, parse_cols_latency hc⟩
  · intro cols _ hnone
    unfold parse_cols
    split
    · rfl
    · rw [hnone]

theorem c2_every_record_latency_coerced_witness :
    (∃ cols ∈ csv_rows "t,u,n,c,s,7",
      parse_cols cols = some (⟨"t", "u", "n", "C", "s", 7⟩ : Row) ∧
      to_latency (cols.getD 5 "") = some (7 : ℤ)) ∧
    parse_cols ["t", "u", "n", "c", "s", "abc"] = none :=
  ⟨(c2_every_record_latency_coerced "t,u,n,c,s,7").1 ⟨"t", "u", "n", "C", "s", 7⟩ (by decide),
   (c2_every_record_latency_coerced "t,u,n,c,s,abc").2 ["t", "u", "n", "c", "s", "abc"]
     (by decide) (by decide)⟩

theorem tdiv_nonneg_eq_ediv {a b : ℤ} (ha : 0 ≤ a) (hb : 0 ≤ b) :
    Int.tdiv a b = a / b := by
  lift a to ℕ using ha
  lift b to ℕ using hb
  rfl

theorem sorted_asc_min_max (values : List ℤ) (h : values ≠ []) :
    ((List.insertionSort (fun a b : ℤ => a ≤ b) values).getD 0 0 ∈ values ∧
      ∀ x ∈ values, (List.insertionSort (fun a b : ℤ => a ≤ b) values).getD 0 0 ≤ x) ∧
    ((List.insertionSort (fun a b : ℤ => a ≤ b) values).getD (values.length - 1) 0 ∈ values ∧
      ∀ x ∈ values, x ≤ (List.insertionSort (fun a b : ℤ => a ≤ b) values).getD (values.length - 1) 0) := by
  set s := List.insertionSort (fun a b : ℤ => a ≤ b) values with hs
  have hlen : s.length = values.length := List.length_insertionSort _ values
  have hpos : 0 < values.length := List.length_pos.mpr h
  have hsort : List.Sorted (fun a b : ℤ => a ≤ b) s := List.sorted_insertionSort _ values
  have h0 : 0 < s.length := by omega
  have hn1 : values.length - 1 < s.length := by omega
  have hmem0 : s.getD 0 0 ∈ values := by
    rw [List.getD_eq_getElem s 0 h0]
    exact (List.mem_insertionSort _).mp (List.getElem_mem h0)
  have hmemn : s.getD (values.length - 1) 0 ∈ values := by
    rw [List.getD_eq_getElem s _ hn1]
    exact (List.mem_insertionSort _).mp (List.getElem_mem hn1)
  refine ⟨⟨hmem0, ?_⟩, ⟨hmemn, ?_⟩⟩
  · intro x hx
    have hxs : x ∈ s := (List.mem_insertionSort _).mpr hx
    rcases List.mem_iff_getElem.mp hxs with ⟨j, hj, rfl⟩
    rw [List.getD_eq_getElem s 0 h0]
    exact hsort.rel_get_of_le (a := ⟨0, h0⟩) (b := ⟨j, hj⟩) (by simp)
  · intro x hx
    have hxs : x ∈ s := (List.mem_insertionSort _).mpr hx
    rcases List.mem_iff_getElem.mp hxs with ⟨j, hj, rfl⟩
    rw [List.getD_eq_getElem s _ hn1]
    exact hsort.rel_get_of_le (a := ⟨j, hj⟩) (b := ⟨values.length - 1, hn1⟩) (by simp; omega)

/-- C3: percentile of a non-empty list at p in [0,1] (p given as an exact
rational num/den) is the element of the ascending-sorted list at zero-based
index floor(p * (n - 1)); that index is in range; p = 0 yields the minimum
and p = 1 the maximum; and the percentile of an empty list is 0 for every
p.  (The program passes p as a binary64 float; the embedding computes the
index in exact rational arithmetic.) -/
theorem c3_percentile_nearest_rank (values : List ℤ) (p : Frac)
    (hd : 0 < p.den) (h0 : 0 ≤ p.num) (h1 : p.num ≤ (p.den : ℤ)) :
    percentile [] p = 0 ∧
    (values ≠ [] →
      percentile values p =
        (List.insertionSort (fun a b : ℤ => a ≤ b) values).getD
          (⌊((p.num : ℚ) * ((values.length - 1 : ℕ) : ℚ)) / ((p.den : ℕ) : ℚ)⌋).toNat 0 ∧
      (⌊((p.num : ℚ) * ((values.length - 1 : ℕ) : ℚ)) / ((p.den : ℕ) : ℚ)⌋).toNat <
        values.length ∧
      (percentile values ⟨0, 1⟩ ∈ values ∧ ∀ x ∈ values, percentile values ⟨0, 1⟩ ≤ x) ∧
      (percentile values ⟨1, 1⟩ ∈ values ∧ ∀ x ∈ values, x ≤ percentile values ⟨1, 1⟩)) := by
  constructor
  · rfl
  · intro hne
    have hpos : 0 < values.length := List.length_pos.mpr hne
    have hfl : ⌊((p.num : ℚ) * ((values.length - 1 : ℕ) : ℚ)) / ((p.den : ℕ) : ℚ)⌋ =
        (p.num * ((values.length - 1 : ℕ) : ℤ)) / (p.den : ℤ) := by
      rw [show ((p.num : ℚ) * ((values.length - 1 : ℕ) : ℚ)) =
          ((p.num * ((values.length - 1 : ℕ) : ℤ) : ℤ) : ℚ) by push_cast; ring]
      exact Rat.floor_intCast_div_natCast _ _
    have hnum : 0 ≤ p.num * ((values.length - 1 : ℕ) : ℤ) :=
      mul_nonneg h0 (Int.natCast_nonneg _)
    refine ⟨?_, ?_, ?_, ?_⟩
    · unfold percentile
      rw [if_neg (by simpa [List.isEmpty_iff] using hne)]
      rw [hfl, tdiv_nonneg_eq_ediv hnum (Int.natCast_nonneg _)]
    · rw [hfl]
      have hle : (p.num * ((values.length - 1 : ℕ) : ℤ)) / (p.den : ℤ) ≤
          ((values.length - 1 : ℕ) : ℤ) := by
        calc (p.num * ((values.length - 1 : ℕ) : ℤ)) / (p.den : ℤ)
            ≤ ((p.den : ℤ) * ((values.length - 1 : ℕ) : ℤ)) / (p.den : ℤ) := by
              apply Int.ediv_le_ediv (by exact_mod_cast hd)
              exact mul_le_mul_of_nonneg_right h1 (Int.natCast_nonneg _)
          _ = ((values.length - 1 : ℕ) : ℤ) := by
              apply Int.mul_ediv_cancel_left
              exact_mod_cast hd.ne'
      omega
    · have hmm := (sorted_asc_min_max values hne).1
      have hp0 : percentile values ⟨0, 1⟩ =
          (List.insertionSort (fun a b : ℤ => a ≤ b) values).getD 0 0 := by
        unfold percentile
        rw [if_neg (by simpa [List.isEmpty_iff] using hne)]
        norm_num
      rw [hp0]
      exact hmm
    · have hmm := (sorted_asc_min_max values hne).2
      have hp1 : percentile values ⟨1, 1⟩ =
          (List.insertionSort (fun a b : ℤ => a ≤ b) values).getD (values.length - 1) 0 := by
        unfold percentile
        rw [if_neg (by simpa [List.isEmpty_iff] using hne)]
        norm_num
      rw [hp1]
      exact hmm


theorem c3_percentile_nearest_rank_witness :
    percentile [] (⟨1, 2⟩ : Frac) = 0 ∧
    (([5, 2, 9] : List ℤ) ≠ [] →
      percentile [5, 2, 9] (⟨1, 2⟩ : Frac) =
        (List.insertionSort (fun a b : ℤ => a ≤ b) [5, 2, 9]).getD
          (⌊(((⟨1, 2⟩ : Frac).num : ℚ) * ((([5, 2, 9] : List ℤ).length - 1 : ℕ) : ℚ)) /
            (((⟨1, 2⟩ : Frac).den : ℕ) : ℚ)⌋).toNat 0 ∧
      (⌊(((⟨1, 2⟩ : Frac).num : ℚ) * ((([5, 2, 9] : List ℤ).length - 1 : ℕ) : ℚ)) /
        (((⟨1, 2⟩ : Frac).den : ℕ) : ℚ)⌋).toNat < ([5, 2, 9] : List ℤ).length ∧
      (percentile [5, 2, 9] ⟨0, 1⟩ ∈ ([5, 2, 9] : List ℤ) ∧
        ∀ x ∈ ([5, 2, 9] : List ℤ), percentile [5, 2, 9] ⟨0, 1⟩ ≤ x) ∧
      (percentile [5, 2, 9] ⟨1, 1⟩ ∈ ([5, 2, 9] : List ℤ) ∧
        ∀ x ∈ ([5, 2, 9] : List ℤ), x ≤ percentile [5, 2, 9] ⟨1, 1⟩)) :=
  c3_percentile_nearest_rank [5, 2, 9] ⟨1, 2⟩ (by decide) (by decide) (by decide)

/-- C8: a second run on unchanged inputs reproduces the exact same content
at every output path.  The writes `build` performs are a pure function of
the inputs (the trend re-read resolves against writes of the same run), so
re-applying them over the tree the first run produced changes nothing. -/
theorem c8_rerun_reproduces_outputs (listing : List (String × String))
    (fs fs1 : List String → Option Doc)
    (h : run_build listing fs = .ok fs1) :
    ∃ fs2, run_build listing fs1 = .ok fs2 ∧ ∀ p, fs2 p = fs1 p := by
  unfold run_build at h ⊢
  cases hb : build listing with
  | error e => rw [hb] at h; exact absurd h (by simp [Except.map])
  | ok ws =>
    rw [hb] at h
    simp only [Except.map, Except.ok.injEq] at h
    refine ⟨apply_writes fs1 ws, rfl, fun p => ?_⟩
    rw [← h]
    unfold apply_writes
    cases lookup_last ws p <;> simp

theorem c8_rerun_reproduces_outputs_witness :
    ∃ fs2, run_build [] (apply_writes (fun _ => none) [(["days.json"], Doc.days [])]) = .ok fs2 ∧
      ∀ p, fs2 p = apply_writes (fun _ => none) [(["days.json"], Doc.days [])] p :=
  c8_rerun_reproduces_outputs [] (fun _ => none) _ rfl

theorem lookup_last_foldl_acc (ws : List (List String × Doc)) (p : List String)
    (acc : Option Doc) :
    ws.foldl (fun a x => if x.1 = p then some x.2 else a) acc =
      match lookup_last ws p with
      | some d => some d
      | none => acc := by
  induction ws generalizing acc with
  | nil => rfl
  | cons w ws ih =>
    show ws.foldl _ (if w.1 = p then some w.2 else acc) = _
    rw [ih]
    have hcons : lookup_last (w :: ws) p =
        match lookup_last ws p with
        | some d => some d
        | none => if w.1 = p then some w.2 else none := by
      show ws.foldl _ (if w.1 = p then some w.2 else none) = _
      rw [ih]
    rw [hcons]
    cases lookup_last ws p with
    | some d => rfl
    | none =>
      by_cases hw : w.1 = p
      · rw [if_pos hw, if_pos hw]
      · rw [if_neg hw, if_neg hw]

theorem lookup_last_append (w1 w2 : List (List String × Doc)) (p : List String) :
    lookup_last (w1 ++ w2) p =
      match lookup_last w2 p with
      | some d => some d
      | none => lookup_last w1 p := by
  unfold lookup_last
  rw [List.foldl_append]
  rw [lookup_last_foldl_acc w2 p (w1.foldl (fun a x => if x.1 = p then some x.2 else a) none)]
  rfl

theorem lookup_last_of_forall_ne {ws : List (List String × Doc)} {p : List String}
    (h : ∀ pd ∈ ws, pd.1 ≠ p) : lookup_last ws p = none := by
  induction ws with
  | nil => rfl
  | cons w ws ih =>
    show ws.foldl _ (if w.1 = p then some w.2 else none) = _
    rw [if_neg (h w (by simp))]
    exact ih fun pd hpd => h pd (by simp [hpd])

theorem per_day_writes_head {day : String} {rows : List Row}
    {pd : List String × Doc} (h : pd ∈ per_day_writes day rows) :
    pd.1.head? = some "days" := by
  unfold per_day_writes at h
  rcases List.mem_cons.mp h with h | h
  · rw [h]; rfl
  · rcases List.mem_map.mp h with ⟨g, _, he⟩
    rw [← he]; rfl

theorem per_day_writes_rows_top {day : String} {rows : List Row}
    {p : List String} {rs : List Row}
    (h : (p, Doc.rows rs) ∈ per_day_writes day rows) : ∃ arr, rs = top_n arr := by
  unfold per_day_writes at h
  rcases List.mem_cons.mp h with h | h
  · exact absurd (congrArg Prod.snd h) (by simp)
  · rcases List.mem_map.mp h with ⟨g, _, he⟩
    have h2 := congrArg Prod.snd he
    simp only at h2
    exact ⟨g.2, by injection h2 with h3; exact h3.symm⟩

theorem process_files_path_head :
    ∀ {fs : List (String × String)} {days : List String} {allRows : List Row}
      {w : List (List String × Doc)},
      process_files fs = .ok (days, allRows, w) →
      ∀ pd ∈ w, pd.1.head? = some "days" := by
  intro fs
  induction fs with
  | nil =>
    intro days allRows w h pd hpd
    unfold process_files at h
    injection h with h
    simp only [Prod.mk.injEq] at h
    rw [← h.2.2] at hpd
    exact absurd hpd (List.not_mem_nil pd)
  | cons f rest ih =>
    intro days allRows w h pd hpd
    unfold process_files at h
    cases hp : parse_day_from_name f.1 with
    | error e => rw [hp] at h; exact absurd h (by simp)
    | ok od =>
      rw [hp] at h
      cases od with
      | none => exact ih h pd hpd
      | some day =>
        cases hr : process_files rest with
        | error e => rw [hr] at h; exact absurd h (by simp)
        | ok t =>
          obtain ⟨ds, ar, ws⟩ := t
          rw [hr] at h
          injection h with h
          simp only [Prod.mk.injEq] at h
          rw [← h.2.2] at hpd
          rcases List.mem_append.mp hpd with hpd | hpd
          · exact per_day_writes_head hpd
          · exact ih hr pd hpd

theorem process_files_rows_top :
    ∀ {fs : List (String × String)} {days : List String} {allRows : List Row}
      {w : List (List String × Doc)},
      process_files fs = .ok (days, allRows, w) →
      ∀ {p rs}, (p, Doc.rows rs) ∈ w → ∃ arr, rs = top_n arr := by
  intro fs
  induction fs with
  | nil =>
    intro days allRows w h p rs hpd
    unfold process_files at h
    injection h with h
    simp only [Prod.mk.injEq] at h
    rw [← h.2.2] at hpd
    exact absurd hpd (List.not_mem_nil _)
  | cons f rest ih =>
    intro days allRows w h p rs hpd
    unfold process_files at h
    cases hp : parse_day_from_name f.1 with
    | error e => rw [hp] at h; exact absurd h (by simp)
    | ok od =>
      rw [hp] at h
      cases od with
      | none => exact ih h hpd
      | some day =>
        cases hr : process_files rest with
        | error e => rw [hr] at h; exact absurd h (by simp)
        | ok t =>
          obtain ⟨ds, ar, ws⟩ := t
          rw [hr] at h
          injection h with h
          simp only [Prod.mk.injEq] at h
          rw [← h.2.2] at hpd
          rcases List.mem_append.mp hpd with hpd | hpd
          · exact per_day_writes_rows_top hpd
          · exact ih hr hpd

theorem top_n_length_le (arr : List Row) : (top_n arr).length ≤ TOP_N_PER_COUNTY := by
  unfold top_n
  rw [List.length_take]
  exact min_le_left _ _

theorem top_n_sorted (arr : List Row) : List.Sorted lat_ge (top_n arr) :=
  (List.sorted_insertionSort lat_ge arr).sublist (List.take_sublist _ _)

theorem process_files_days_count :
    ∀ {fs : List (String × String)} {days : List String} {allRows : List Row}
      {w : List (List String × Doc)},
      process_files fs = .ok (days, allRows, w) → ∀ d : String,
      days.count d = fs.countP (fun f => decide (parse_day_from_name f.1 = .ok (some d))) := by
  intro fs
  induction fs with
  | nil =>
    intro days allRows w h d
    unfold process_files at h
    injection h with h
    simp only [Prod.mk.injEq] at h
    rw [← h.1]
    rfl
  | cons f rest ih =>
    intro days allRows w h d
    unfold process_files at h
    cases hp : parse_day_from_name f.1 with
    | error e => rw [hp] at h; exact absurd h (by simp)
    | ok od =>
      rw [hp] at h
      cases od with
      | none =>
        have hih := ih h d
        simp [List.countP_cons, hp, hih]
      | some day =>
        cases hr : process_files rest with
        | error e => rw [hr] at h; exact absurd h (by simp)
        | ok t =>
          obtain ⟨ds, ar, ws⟩ := t
          rw [hr] at h
          injection h with h
          simp only [Prod.mk.injEq] at h
          rw [← h.1]
          have hih := ih hr d
          by_cases hday : day = d
          · subst hday
            simp [List.count_cons, List.countP_cons, hp, hih]
          · simp [List.count_cons, List.countP_cons, hp, hih, hday, Ne.symm hday]

theorem process_files_file_contrib :
    ∀ {fs : List (String × String)} {days : List String} {allRows : List Row}
      {w : List (List String × Doc)},
      process_files fs = .ok (days, allRows, w) →
      ∀ {f : String × String} {d : String}, f ∈ fs →
      parse_day_from_name f.1 = .ok (some d) →
      (∀ r ∈ read_headerless_nav f.2, r ∈ allRows) ∧
      (∀ pd ∈ per_day_writes d (read_headerless_nav f.2), pd ∈ w) := by
  intro fs
  induction fs with
  | nil =>
    intro days allRows w h f d hf hd
    exact absurd hf (List.not_mem_nil f)
  | cons g rest ih =>
    intro days allRows w h f d hf hd
    unfold process_files at h
    cases hp : parse_day_from_name g.1 with
    | error e => rw [hp] at h; exact absurd h (by simp)
    | ok od =>
      rw [hp] at h
      rcases List.mem_cons.mp hf with rfl | hf2
      · rw [hd] at hp
        injection hp with hp
        cases hp
        cases hr : process_files rest with
        | error e => rw [hr] at h; exact absurd h (by simp)
        | ok t =>
          obtain ⟨ds, ar, ws⟩ := t
          rw [hr] at h
          injection h with h
          simp only [Prod.mk.injEq] at h
          constructor
          · intro r hrr
            rw [← h.2.1]
            exact List.mem_append.mpr (Or.inl hrr)
          · intro pd hpd
            rw [← h.2.2]
            exact List.mem_append.mpr (Or.inl hpd)
      · cases od with
        | none => exact ih h hf2 hd
        | some day =>
          cases hr : process_files rest with
          | error e => rw [hr] at h; exact absurd h (by simp)
          | ok t =>
            obtain ⟨ds, ar, ws⟩ := t
            rw [hr] at h
            injection h with h
            simp only [Prod.mk.injEq] at h
            have hih := ih hr hf2 hd
            constructor
            · intro r hrr
              rw [← h.2.1]
              exact List.mem_append.mpr (Or.inr (hih.1 r hrr))
            · intro pd hpd
              rw [← h.2.2]
              exact List.mem_append.mpr (Or.inr (hih.2 pd hpd))

theorem add_to_group_keeps (gs : List (String × List Row)) (r : Row) (c : String)
    (h : ∃ arr, (c, arr) ∈ gs) : ∃ arr, (c, arr) ∈ add_to_group gs r := by
  induction gs with
  | nil => exact absurd h (by simp)
  | cons g rest ih =>
    obtain ⟨arr, harr⟩ := h
    obtain ⟨c0, arr0⟩ := g
    unfold add_to_group
    rcases List.mem_cons.mp harr with he | hm
    · injection he with he1 he2
      subst he1; subst he2
      by_cases hc : c = r.County
      · exact ⟨arr ++ [r], by rw [if_pos hc]; exact List.mem_cons_self _ _⟩
      · exact ⟨arr, by rw [if_neg hc]; exact List.mem_cons_self _ _⟩
    · by_cases hc : c0 = r.County
      · exact ⟨arr, by rw [if_pos hc]; exact List.mem_cons_of_mem _ hm⟩
      · obtain ⟨arr2, h2⟩ := ih ⟨arr, hm⟩
        exact ⟨arr2, by rw [if_neg hc]; exact List.mem_cons_of_mem _ h2⟩

theorem add_to_group_self (gs : List (String × List Row)) (r : Row) :
    ∃ arr, (r.County, arr) ∈ add_to_group gs r := by
  induction gs with
  | nil => exact ⟨[r], by unfold add_to_group; exact List.mem_cons_self _ _⟩
  | cons g rest ih =>
    obtain ⟨c0, arr0⟩ := g
    unfold add_to_group
    by_cases hc : c0 = r.County
    · exact ⟨arr0 ++ [r], by rw [if_pos hc]; rw [hc]; exact List.mem_cons_self _ _⟩
    · obtain ⟨arr2, h2⟩ := ih
      exact ⟨arr2, by rw [if_neg hc]; exact List.mem_cons_of_mem _ h2⟩

theorem foldl_group_keeps (rows : List Row) (acc : List (String × List Row)) (c : String)
    (h : ∃ arr, (c, arr) ∈ acc) : ∃ arr, (c, arr) ∈ rows.foldl add_to_group acc := by
  induction rows generalizing acc with
  | nil => exact h
  | cons r rest ih => exact ih (add_to_group acc r) (add_to_group_keeps acc r c h)

theorem foldl_group_mem :
    ∀ (rows : List Row) (acc : List (String × List Row)) (r : Row), r ∈ rows →
      ∃ arr, (r.County, arr) ∈ rows.foldl add_to_group acc := by
  intro rows
  induction rows with
  | nil => intro acc r h; exact absurd h (by simp)
  | cons x rest ih =>
    intro acc r h
    rcases List.mem_cons.mp h with rfl | hm
    · exact foldl_group_keeps rest (add_to_group acc r) r.County (add_to_group_self acc r)
    · exact ih (add_to_group acc x) r hm

theorem group_by_county_mem {rows : List Row} {r : Row} (h : r ∈ rows) :
    ∃ arr, (r.County, arr) ∈ group_by_county rows :=
  foldl_group_mem rows [] r h

theorem trend_of_ok :
    ∀ {l : List String} {w : List (List String × Doc)} {ts : List TrendEntry},
      trend_of w l = .ok ts →
      ts.map TrendEntry.day = l ∧ ∀ e ∈ ts, trend_entry w e.day = some e := by
  intro l
  induction l with
  | nil =>
    intro w ts h
    unfold trend_of at h
    injection h with h
    subst h
    exact ⟨rfl, fun e he => absurd he (by simp)⟩
  | cons d ds ih =>
    intro w ts h
    unfold trend_of at h
    cases he : trend_entry w d with
    | none => rw [he] at h; exact absurd h (by simp)
    | some e =>
      rw [he] at h
      cases hr : trend_of w ds with
      | error er => rw [hr] at h; exact absurd h (by simp)
      | ok rest =>
        rw [hr] at h
        injection h with h
        obtain ⟨ih1, ih2⟩ := ih hr
        have hday : e.day = d := by
          unfold trend_entry at he
          cases hl : lookup_last w ["days", d, "summary.json"] with
          | none => rw [hl] at he; exact absurd he (by simp)
          | some doc =>
            rw [hl] at he
            cases doc with
            | summary s => injection he with he2; rw [← he2]
            | rows rs => exact absurd he (by simp)
            | days ds2 => exact absurd he (by simp)
            | trend ts2 => exact absurd he (by simp)
        constructor
        · rw [← h]
          simp [hday, ih1]
        · intro e2 he2
          rw [← h] at he2
          rcases List.mem_cons.mp he2 with rfl | hm
          · rw [hday]; exact he
          · exact ih2 e2 hm

/-- All-time per-county listing writes for a record set. -/
def all_county_writes (allRows : List Row) : List (List String × Doc) :=
  (summarize allRows).2.map
    (fun g => (["byCounty", county_label g.1 ++ ".json"], Doc.rows (top_n g.2)))

theorem build_ok_cases {listing : List (String × String)}
    {ws : List (List String × Doc)} (h : build listing = .ok ws) :
    ∃ days allRows w1,
      process_files (matched_files listing) = .ok (days, allRows, w1) ∧
      ((allRows = [] ∧ ws = w1 ++ [(["days.json"], Doc.days (sort_days days))]) ∨
       (allRows ≠ [] ∧ ∃ ts,
         trend_of (w1 ++ [(["days.json"], Doc.days (sort_days days))] ++
             (["summary.json"], Doc.summary (summarize allRows).1) :: all_county_writes allRows)
           (sort_days days) = .ok ts ∧
         ws = w1 ++ [(["days.json"], Doc.days (sort_days days))] ++
           (["summary.json"], Doc.summary (summarize allRows).1) :: all_county_writes allRows ++
           [(["trends", "summary_by_day.json"], Doc.trend ts)])) := by
  unfold build at h
  cases hp : process_files (matched_files listing) with
  | error e => rw [hp] at h; exact absurd h (by simp)
  | ok t =>
    obtain ⟨days, allRows, w1⟩ := t
    rw [hp] at h
    dsimp only at h
    refine ⟨days, allRows, w1, rfl, ?_⟩
    by_cases hz : allRows.isEmpty
    · rw [if_pos hz] at h
      injection h with h
      exact Or.inl ⟨List.isEmpty_iff.mp hz, h.symm⟩
    · rw [if_neg hz] at h
      cases ht : trend_of (w1 ++ [(["days.json"], Doc.days (sort_days days))] ++
          (["summary.json"], Doc.summary (summarize allRows).1) :: all_county_writes allRows)
          (sort_days days) with
      | error e =>
        rw [show all_county_writes allRows = (summarize allRows).2.map
          (fun g => (["byCounty", county_label g.1 ++ ".json"], Doc.rows (top_n g.2))) from rfl] at ht
        rw [ht] at h
        exact absurd h (by simp)
      | ok ts =>
        rw [show all_county_writes allRows = (summarize allRows).2.map
          (fun g => (["byCounty", county_label g.1 ++ ".json"], Doc.rows (top_n g.2))) from rfl] at ht
        rw [ht] at h
        injection h with h
        refine Or.inr ⟨fun hc => hz (by rw [hc]; rfl), ts, rfl, ?_⟩
        rw [← h]
        simp [all_county_writes]

/-- C5: every per-county record listing the pipeline writes — per-day and
all-time — is sorted by latency descending and holds at most
TOP_N_PER_COUNTY (200) records; the cap applies independently to each
listing document. -/
theorem c5_listings_sorted_and_capped {listing : List (String × String)}
    {ws : List (List String × Doc)} {p : List String} {rs : List Row}
    (h : build listing = .ok ws) (hm : (p, Doc.rows rs) ∈ ws) :
    rs.length ≤ TOP_N_PER_COUNTY ∧ List.Sorted lat_ge rs := by
  obtain ⟨days, allRows, w1, hp, hcase⟩ := build_ok_cases h
  have hshape : ∃ arr, rs = top_n arr := by
    rcases hcase with ⟨hz, rfl⟩ | ⟨hz, ts, ht, rfl⟩
    · rcases List.mem_append.mp hm with hm | hm
      · exact process_files_rows_top hp hm
      · rcases List.mem_cons.mp hm with he | he
        · exact absurd (congrArg Prod.snd he) (by simp)
        · exact absurd he (by simp)
    · rcases List.mem_append.mp hm with hm | hm
      · rcases List.mem_append.mp hm with hm | hm
        · rcases List.mem_append.mp hm with hm | hm
          · exact process_files_rows_top hp hm
          · rcases List.mem_cons.mp hm with he | he
            · exact absurd (congrArg Prod.snd he) (by simp)
            · exact absurd he (by simp)
        · rcases List.mem_cons.mp hm with he | he
          · exact absurd (congrArg Prod.snd he) (by simp)
          · rcases List.mem_map.mp he with ⟨g, _, hge⟩
            have h2 := congrArg Prod.snd hge
            simp only at h2
            exact ⟨g.2, by injection h2 with h3; exact h3.symm⟩
      · rcases List.mem_cons.mp hm with he | he
        · exact absurd (congrArg Prod.snd he) (by simp)
        · exact absurd he (by simp)
  obtain ⟨arr, rfl⟩ := hshape
  exact ⟨top_n_length_le arr, top_n_sorted arr⟩

theorem c5_listings_sorted_and_capped_witness :
    ([⟨"t", "u", "n", "C", "s", 5⟩] : List Row).length ≤ TOP_N_PER_COUNTY ∧
      List.Sorted lat_ge ([⟨"t", "u", "n", "C", "s", 5⟩] : List Row) :=
  c5_listings_sorted_and_capped
    (show build [("250101.userRecord.NAVIGATION.csv", "t,u,n,c,s,5")] =
      Except.ok ((build [("250101.userRecord.NAVIGATION.csv", "t,u,n,c,s,5")]).toOption.getD [])
      from rfl)
    (show (["days", "2025-01-01", "byCounty", "C.json"],
        Doc.rows [⟨"t", "u", "n", "C", "s", 5⟩]) ∈
      (build [("250101.userRecord.NAVIGATION.csv", "t,u,n,c,s,5")]).toOption.getD []
      by decide)

/-- C6: when zero records are extracted overall, the all-time summary, the
top-level per-county listings and the trend document are not written, but
the day index is still written and lists exactly the days whose filename
matched — a day is registered by filename match alone, including days
whose file had zero valid rows. -/
theorem c6_zero_records {listing : List (String × String)}
    {days : List String} {allRows : List Row} {w1 : List (List String × Doc)}
    (h : process_files (matched_files listing) = .ok (days, allRows, w1))
    (hz : allRows = []) :
    ∃ ws, build listing = .ok ws ∧
      (∀ pd ∈ ws, pd.1 ≠ ["summary.json"] ∧ pd.1.head? ≠ some "byCounty" ∧
        pd.1 ≠ ["trends", "summary_by_day.json"]) ∧
      (["days.json"], Doc.days (sort_days days)) ∈ ws ∧
      (∀ d, d ∈ days ↔ ∃ f ∈ matched_files listing,
        parse_day_from_name f.1 = .ok (some d)) := by
  have hb : build listing = .ok (w1 ++ [(["days.json"], Doc.days (sort_days days))]) := by
    unfold build
    rw [h]
    dsimp only
    rw [if_pos (by rw [hz]; rfl)]
  refine ⟨_, hb, ?_, ?_, ?_⟩
  · intro pd hpd
    rcases List.mem_append.mp hpd with hm | hm
    · have hh := process_files_path_head h pd hm
      refine ⟨?_, ?_, ?_⟩
      · intro he; rw [he] at hh; exact absurd hh (by decide)
      · intro he
        have hc := hh.symm.trans he
        exact absurd hc (by decide)
      · intro he; rw [he] at hh; exact absurd hh (by decide)
    · rcases List.mem_cons.mp hm with he | he
      · have h1 : pd.1 = ["days.json"] := by rw [he]
        refine ⟨by rw [h1]; decide, by rw [h1]; decide, by rw [h1]; decide⟩
      · exact absurd he (by simp)
  · exact List.mem_append.mpr (Or.inr (by simp))
  · intro d
    have hc := process_files_days_count h d
    constructor
    · intro hd
      have hpos : 0 < days.count d := List.count_pos_iff.mpr hd
      rw [hc] at hpos
      obtain ⟨f, hf, hp⟩ := List.countP_pos_iff.mp hpos
      exact ⟨f, hf, of_decide_eq_true hp⟩
    · rintro ⟨f, hf, hp⟩
      have hpos : 0 < (matched_files listing).countP
          (fun f => decide (parse_day_from_name f.1 = .ok (some d))) :=
        List.countP_pos_iff.mpr ⟨f, hf, decide_eq_true hp⟩
      rw [← hc] at hpos
      exact List.count_pos_iff.mp hpos

theorem c6_zero_records_witness :
    ∃ ws, build [("250101.userRecord.NAVIGATION.csv", "")] = .ok ws ∧
      (∀ pd ∈ ws, pd.1 ≠ ["summary.json"] ∧ pd.1.head? ≠ some "byCounty" ∧
        pd.1 ≠ ["trends", "summary_by_day.json"]) ∧
      (["days.json"], Doc.days (sort_days ["2025-01-01"])) ∈ ws ∧
      (∀ d, d ∈ ["2025-01-01"] ↔ ∃ f ∈ matched_files [("250101.userRecord.NAVIGATION.csv", "")],
        parse_day_from_name f.1 = .ok (some d)) :=
  c6_zero_records
    (show process_files (matched_files [("250101.userRecord.NAVIGATION.csv", "")]) =
      .ok (["2025-01-01"], [],
        [(["days", "2025-01-01", "summary.json"], Doc.summary ⟨0, ⟨0, 1⟩, 0, 0, 0, []⟩)])
      by decide)
    rfl

/-- C9, counterexample: the empty-county group is not labelled UNKNOWN
everywhere it appears in output.  The byCountyAvg mapping inside a summary
document keys the group by the raw county value, so a single empty-county
record yields an all-time summary.json whose byCountyAvg entry is keyed by
the empty string, which differs from the literal "UNKNOWN". -/
theorem c9_summary_avg_empty_key_counterexample :
    (build [("250101.userRecord.NAVIGATION.csv", "t,u,n,,s,5")]).map
      (fun ws => lookup_last ws ["summary.json"]) =
    .ok (some (Doc.summary ⟨1, ⟨5, 1⟩, 5, 5, 5, [("", ⟨5, 1⟩)]⟩)) ∧
    ("" : String) ≠ "UNKNOWN" := by
  decide

/-- C9, amended: each per-county record listing for a group whose
normalized (trimmed, upper-cased) county is the empty string is
materialized under the literal label UNKNOWN — the listing path is
days/{day}/byCounty/UNKNOWN.json at the per-day scope and
byCounty/UNKNOWN.json at the all-time scope — while the byCountyAvg
mapping inside summary documents keys that same group by the raw empty
string. -/
theorem c9_empty_county_unknown {listing : List (String × String)}
    {ws : List (List String × Doc)} {f : String × String} {d : String} {r : Row}
    (h : build listing = .ok ws)
    (hf : f ∈ matched_files listing)
    (hd : parse_day_from_name f.1 = .ok (some d))
    (hr : r ∈ read_headerless_nav f.2)
    (hc : r.County = "") :
    (∃ doc, (["days", d, "byCounty", "UNKNOWN.json"], doc) ∈ ws) ∧
    (∃ doc, (["byCounty", "UNKNOWN.json"], doc) ∈ ws) := by
  obtain ⟨days, allRows, w1, hp, hcase⟩ := build_ok_cases h
  obtain ⟨hrows, hwrites⟩ := process_files_file_contrib hp hf hd
  have hw1 : ∀ pd ∈ w1, pd ∈ ws := by
    rcases hcase with ⟨hz, rfl⟩ | ⟨hz, ts, ht, rfl⟩
    · intro pd hpd; exact List.mem_append.mpr (Or.inl hpd)
    · intro pd hpd
      exact List.mem_append.mpr (Or.inl (List.mem_append.mpr
        (Or.inl (List.mem_append.mpr (Or.inl hpd)))))
  constructor
  · obtain ⟨arr, harr⟩ := group_by_county_mem hr
    rw [hc] at harr
    have hmem : (["days", d, "byCounty", "UNKNOWN.json"], Doc.rows (top_n arr)) ∈
        per_day_writes d (read_headerless_nav f.2) := by
      unfold per_day_writes
      refine List.mem_cons_of_mem _ ?_
      have := List.mem_map_of_mem
        (fun g => (["days", d, "byCounty", county_label g.1 ++ ".json"],
          Doc.rows (top_n g.2))) harr
      simpa [county_label] using this
    exact ⟨Doc.rows (top_n arr), hw1 _ (hwrites _ hmem)⟩
  · have hra : r ∈ allRows := hrows r hr
    rcases hcase with ⟨hz, rfl⟩ | ⟨hz, ts, ht, rfl⟩
    · rw [hz] at hra; exact absurd hra (by simp)
    · obtain ⟨arr, harr⟩ := group_by_county_mem hra
      rw [hc] at harr
      have hmem : (["byCounty", "UNKNOWN.json"], Doc.rows (top_n arr)) ∈
          all_county_writes allRows := by
        unfold all_county_writes
        have := List.mem_map_of_mem
          (fun g => (["byCounty", county_label g.1 ++ ".json"], Doc.rows (top_n g.2))) harr
        simpa [county_label] using this
      refine ⟨Doc.rows (top_n arr), ?_⟩
      exact List.mem_append.mpr (Or.inl (List.mem_append.mpr
        (Or.inr (List.mem_cons_of_mem _ hmem))))

theorem c9_empty_county_unknown_witness :
    (∃ doc, (["days", "2025-01-01", "byCounty", "UNKNOWN.json"], doc) ∈
      (build [("250101.userRecord.NAVIGATION.csv", "t,u,n,,s,5")]).toOption.getD []) ∧
    (∃ doc, (["byCounty", "UNKNOWN.json"], doc) ∈
      (build [("250101.userRecord.NAVIGATION.csv", "t,u,n,,s,5")]).toOption.getD []) :=
  c9_empty_county_unknown
    (show build [("250101.userRecord.NAVIGATION.csv", "t,u,n,,s,5")] =
      Except.ok ((build [("250101.userRecord.NAVIGATION.csv", "t,u,n,,s,5")]).toOption.getD [])
      from rfl)
    (show ("250101.userRecord.NAVIGATION.csv", "t,u,n,,s,5") ∈
      matched_files [("250101.userRecord.NAVIGATION.csv", "t,u,n,,s,5")] by decide)
    (by decide)
    (show (⟨"t", "u", "n", "", "s", 5⟩ : Row) ∈
      read_headerless_nav "t,u,n,,s,5" by decide)
    rfl

theorem lookup_last_cons (x : List String × Doc) (ws : List (List String × Doc))
    (p : List String) :
    lookup_last (x :: ws) p =
      match lookup_last ws p with
      | some d => some d
      | none => if x.1 = p then some x.2 else none := by
  show ws.foldl _ (if x.1 = p then some x.2 else none) = _
  rw [lookup_last_foldl_acc]

theorem w1_lookup_none {fs : List (String × String)} {days : List String}
    {allRows : List Row} {w1 : List (List String × Doc)}
    (hp : process_files fs = .ok (days, allRows, w1))
    {p : List String} (hhead : p.head? ≠ some "days") :
    lookup_last w1 p = none := by
  apply lookup_last_of_forall_ne
  intro pd hpd he
  exact hhead (he ▸ process_files_path_head hp pd hpd)

theorem acw_lookup_none (allRows : List Row) {p : List String}
    (hhead : p.head? ≠ some "byCounty") :
    lookup_last (all_county_writes allRows) p = none := by
  apply lookup_last_of_forall_ne
  intro pd hpd he
  rcases List.mem_map.mp hpd with ⟨g, _, hge⟩
  have h1 : pd.1 = ["byCounty", county_label g.1 ++ ".json"] := by rw [← hge]
  rw [he] at h1
  rw [h1] at hhead
  exact hhead rfl

theorem lookup_last_append_none {w2 w1 : List (List String × Doc)} {p : List String}
    (h2 : lookup_last w2 p = none) : lookup_last (w1 ++ w2) p = lookup_last w1 p := by
  rw [lookup_last_append, h2]

theorem lookup_last_append_some {w2 w1 : List (List String × Doc)} {p : List String}
    {d : Doc} (h2 : lookup_last w2 p = some d) : lookup_last (w1 ++ w2) p = some d := by
  rw [lookup_last_append, h2]

/-- C10: the day index is never deduplicated — each day string occurs in
days.json once per input file whose filename resolves to it — and the
trend list has exactly one entry per occurrence (its day column equals the
days list), entries of equal days being identical because each is re-read
from the same last-written per-day summary path. -/
theorem c10_duplicate_days {listing : List (String × String)}
    {ws : List (List String × Doc)} {ds : List String}
    (h : build listing = .ok ws)
    (hd : lookup_last ws ["days.json"] = some (Doc.days ds)) :
    (∀ d, ds.count d = (matched_files listing).countP
      (fun f => decide (parse_day_from_name f.1 = .ok (some d)))) ∧
    (∀ ts, lookup_last ws ["trends", "summary_by_day.json"] = some (Doc.trend ts) →
      ts.map TrendEntry.day = ds ∧
      ∀ e ∈ ts, ∀ e2 ∈ ts, e.day = e2.day → e = e2) := by
  obtain ⟨days, allRows, w1, hp, hcase⟩ := build_ok_cases h
  rcases hcase with ⟨hz, rfl⟩ | ⟨hz, ts0, ht, rfl⟩
  · have hdj : lookup_last (w1 ++ [(["days.json"], Doc.days (sort_days days))])
        ["days.json"] = some (Doc.days (sort_days days)) := by
      rw [lookup_last_append]
      rfl
    rw [hdj] at hd
    injection hd with hd2
    injection hd2 with hd3
    subst hd3
    constructor
    · intro d
      have hperm : (sort_days days).count d = days.count d :=
        (List.perm_insertionSort str_le days).count_eq d
      rw [hperm]
      exact process_files_days_count hp d
    · intro ts hts
      have hnone : lookup_last (w1 ++ [(["days.json"], Doc.days (sort_days days))])
          ["trends", "summary_by_day.json"] = none := by
        rw [lookup_last_append]
        have h1 : lookup_last [(["days.json"], Doc.days (sort_days days))]
            ["trends", "summary_by_day.json"] = none := rfl
        rw [h1, w1_lookup_none hp (by decide)]
      rw [hnone] at hts
      exact absurd hts (by simp)
  · have hdsum : lookup_last (all_county_writes allRows) ["days.json"] = none :=
      acw_lookup_none allRows (by decide)
    have htsum : lookup_last (all_county_writes allRows) ["trends", "summary_by_day.json"] = none :=
      acw_lookup_none allRows (by decide)
    have hsacw : lookup_last ((["summary.json"], Doc.summary (summarize allRows).1) ::
        all_county_writes allRows) ["days.json"] = none := by
      rw [lookup_last_cons, hdsum]
      rfl
    have hte : lookup_last [(["trends", "summary_by_day.json"], Doc.trend ts0)]
        ["days.json"] = none := by rfl
    have hde : lookup_last [(["days.json"], Doc.days (sort_days days))]
        ["days.json"] = some (Doc.days (sort_days days)) := by rfl
    have hte2 : lookup_last [(["trends", "summary_by_day.json"], Doc.trend ts0)]
        ["trends", "summary_by_day.json"] = some (Doc.trend ts0) := by rfl
    have hdj : lookup_last (w1 ++ [(["days.json"], Doc.days (sort_days days))] ++
        (["summary.json"], Doc.summary (summarize allRows).1) :: all_county_writes allRows ++
        [(["trends", "summary_by_day.json"], Doc.trend ts0)]) ["days.json"] =
        some (Doc.days (sort_days days)) := by
      rw [lookup_last_append_none hte, lookup_last_append_none hsacw,
        lookup_last_append_some hde]
    have htj : lookup_last (w1 ++ [(["days.json"], Doc.days (sort_days days))] ++
        (["summary.json"], Doc.summary (summarize allRows).1) :: all_county_writes allRows ++
        [(["trends", "summary_by_day.json"], Doc.trend ts0)]) ["trends", "summary_by_day.json"] =
        some (Doc.trend ts0) := by
      rw [lookup_last_append_some hte2]
    rw [hdj] at hd
    injection hd with hd2
    injection hd2 with hd3
    subst hd3
    constructor
    · intro d
      have hperm : (sort_days days).count d = days.count d :=
        (List.perm_insertionSort str_le days).count_eq d
      rw [hperm]
      exact process_files_days_count hp d
    · intro ts hts
      rw [htj] at hts
      injection hts with hts2
      injection hts2 with hts3
      subst hts3
      obtain ⟨hmap, hent⟩ := trend_of_ok ht
      refine ⟨hmap, ?_⟩
      intro e he e2 he2 hday
      have h1 := hent e he
      have h2 := hent e2 he2
      rw [hday] at h1
      rw [h1] at h2
      injection h2


theorem c10_duplicate_days_witness :
    (∀ d, (["2025-01-01", "2025-01-01"] : List String).count d =
      (matched_files [("250101.userRecord.NAVIGATION.csv", "t,u,n,c,s,1"),
        ("250101a.userRecord.NAVIGATION.csv", "t,u,n,c,s,2")]).countP
        (fun f => decide (parse_day_from_name f.1 = .ok (some d)))) ∧
    (∀ ts, lookup_last
        ((build [("250101.userRecord.NAVIGATION.csv", "t,u,n,c,s,1"),
          ("250101a.userRecord.NAVIGATION.csv", "t,u,n,c,s,2")]).toOption.getD [])
        ["trends", "summary_by_day.json"] = some (Doc.trend ts) →
      ts.map TrendEntry.day = ["2025-01-01", "2025-01-01"] ∧
      ∀ e ∈ ts, ∀ e2 ∈ ts, e.day = e2.day → e = e2) :=
  c10_duplicate_days
    (show build [("250101.userRecord.NAVIGATION.csv", "t,u,n,c,s,1"),
        ("250101a.userRecord.NAVIGATION.csv", "t,u,n,c,s,2")] =
      Except.ok ((build [("250101.userRecord.NAVIGATION.csv", "t,u,n,c,s,1"),
        ("250101a.userRecord.NAVIGATION.csv", "t,u,n,c,s,2")]).toOption.getD [])
      from rfl)
    (show lookup_last
        ((build [("250101.userRecord.NAVIGATION.csv", "t,u,n,c,s,1"),
          ("250101a.userRecord.NAVIGATION.csv", "t,u,n,c,s,2")]).toOption.getD [])
        ["days.json"] = some (Doc.days ["2025-01-01", "2025-01-01"]) by decide)
